import Mathlib

/-!
# Verification of the segmentation / deduplication / retrieval-fusion core

Shallow embedding of the core algorithms of the Alberta Perspectives RAG
backend (`document_processor.py`, `document_deduplication.py`,
`advanced_search.py`, `database.py`) together with proofs and refutations of
the specification's claims about them.

Python strings are modelled as `List Char` (Python `len` counts characters),
byte strings as `List Nat`, Python `float` scores as `ℚ`, Python dicts used
as records as Lean structures, and Python dicts used as insertion-ordered
maps as association lists with Python-dict update semantics.  Cryptographic
digests (`hashlib.sha256`, `hashlib.md5`) are kept abstract: the functions
that use them take the digest as an explicit argument, and no theorem below
depends on the value of a digest.  Code paths that raise a Python exception
are modelled in `Except String`.
-/

namespace RagCore

/-! ## Python string primitives over `List Char` -/

/-- Python `str.strip()` with no arguments: remove leading and trailing
whitespace characters. -/
def pyStrip (s : List Char) : List Char :=
  ((s.dropWhile Char.isWhitespace).reverse.dropWhile Char.isWhitespace).reverse

/-- Python `" ".join(parts)`: interleave a single space between the parts. -/
def joinSpace : List (List Char) → List Char
  | [] => []
  | [s] => s
  | s :: rest => s ++ ' ' :: joinSpace rest

/-- Worker for Python `str.split()`: scan the characters, emitting the
maximal non-whitespace runs (the current run is carried reversed). -/
def wsWordsAux : List Char → List Char → List (List Char)
  | [], curRev => if curRev = [] then [] else [curRev.reverse]
  | c :: rest, curRev =>
    if c.isWhitespace then
      if curRev = [] then wsWordsAux rest []
      else curRev.reverse :: wsWordsAux rest []
    else
      wsWordsAux rest (c :: curRev)

/-- Python `str.split()` with no arguments: the maximal non-whitespace runs
(empty pieces are never produced). -/
def wsWords (s : List Char) : List (List Char) :=
  wsWordsAux s []

/-! ## Segmenter (`document_processor.py`) -/

/-- Does the accumulated (reversed) sentence fragment end in `.`, `!` or `?`?
This is the lookbehind `(?<=[.!?])` of the sentence-splitting regex. -/
def isSentBoundary (curRev : List Char) : Bool :=
  match curRev with
  | [] => false
  | c :: _ => c == '.' || c == '!' || c == '?'

/-- Worker for `re.split(r'(?<=[.!?])\s+', text)`: scan the characters,
closing the current fragment at every maximal whitespace run that is
immediately preceded by sentence-ending punctuation.  `skipWs = true` means
the scan is inside the whitespace run of a match (the matched whitespace is
consumed and the current fragment is empty). -/
def sentSplitAux : Bool → List Char → List Char → List (List Char) → List (List Char)
  | _, [], curRev, acc => acc ++ [curRev.reverse]
  | skipWs, c :: rest, curRev, acc =>
    if skipWs then
      if c.isWhitespace then
        sentSplitAux true rest curRev acc
      else
        sentSplitAux false rest (c :: curRev) acc
    else if c.isWhitespace && isSentBoundary curRev then
      sentSplitAux true rest [] (acc ++ [curRev.reverse])
    else
      sentSplitAux false rest (c :: curRev) acc

/-- Embedding of `DocumentProcessor._split_into_sentences`: split on whitespace that
follows boundary punctuation, strip each piece, and drop empty pieces. -/
def splitIntoSentences (text : List Char) : List (List Char) :=
  ((sentSplitAux false text [] []).map pyStrip).filter (fun s => s ≠ [])

/-- Segmenter configuration: `DocumentProcessor.__init__`'s
`chunk_size` and `chunk_overlap` fields. -/
structure ChunkConfig where
  chunk_size : Nat
  chunk_overlap : Nat
deriving Repr, DecidableEq

/-- The chunk dictionary built by `DocumentProcessor._create_chunk_info`. -/
structure ChunkInfo where
  content : List Char
  chunk_index : Nat
  page_number : Option Nat
  char_count : Nat
  word_count : Nat
  sentence_count : Nat
  content_hash : String
deriving Repr, DecidableEq

/-- The accumulation walk of `_calculate_overlap_sentences`: count sentences
(from the front of the given reversed list) while the running character total
stays within `chunk_overlap`; stop at the first overflow. -/
def overlapWalk (chunk_overlap : Nat) : List (List Char) → Nat → Nat → Nat
  | [], _, n => n
  | s :: rest, total, n =>
    if total + s.length ≤ chunk_overlap then
      overlapWalk chunk_overlap rest (total + s.length) (n + 1)
    else
      n

/-- Embedding of `DocumentProcessor._calculate_overlap_sentences`: walk the chunk's
sentences from the end, counting sentences while the running character total
stays within `chunk_overlap`; stop at the first overflow; cap the count at
half the sentence count (`# Max 50% overlap`). -/
def calculateOverlapSentences (cfg : ChunkConfig) (sentences : List (List Char)) : Nat :=
  min (overlapWalk cfg.chunk_overlap sentences.reverse 0 0) (sentences.length / 2)

/-- Python `lst[-k:]`.  For `k ≥ 1` this is the last `min k (length lst)`
elements; for `k = 0` it is the **whole list** (`lst[-0:] = lst[0:]`). -/
def pySliceLast (k : Nat) (l : List (List Char)) : List (List Char) :=
  if k = 0 then l else l.drop (l.length - k)

/-- Embedding of `DocumentProcessor._create_chunk_info`, with the `hashlib.md5` hex digest
abstracted as `digest`. -/
def createChunkInfo (digest : List Char → String) (content : List Char)
    (chunk_index : Nat) (page_number : Option Nat)
    (sentences : List (List Char)) : ChunkInfo :=
  { content := content
    chunk_index := chunk_index
    page_number := page_number
    char_count := content.length
    word_count := (wsWords content).length
    sentence_count := sentences.length
    content_hash := digest content }

/-- The sentence-accumulation loop of `DocumentProcessor.chunk_text`
(lines 242-271): state is the current chunk text, its sentence list, the next
chunk index and the chunks emitted so far. -/
def chunkLoop (digest : List Char → String) (cfg : ChunkConfig)
    (page_number : Option Nat) :
    List (List Char) → List Char → List (List Char) → Nat → List ChunkInfo →
    List ChunkInfo
  | [], current, sents, idx, chunks =>
    if pyStrip current ≠ [] then
      chunks ++ [createChunkInfo digest (pyStrip current) idx page_number sents]
    else
      chunks
  | s :: rest, current, sents, idx, chunks =>
    if current.length + s.length > cfg.chunk_size ∧ current ≠ [] then
      let chunks' := chunks ++
        [createChunkInfo digest (pyStrip current) idx page_number sents]
      let overlap := pySliceLast (calculateOverlapSentences cfg sents) sents
      let current' := joinSpace overlap
      let current'' := if current' ≠ [] then current' ++ ' ' :: s else s
      chunkLoop digest cfg page_number rest current'' (overlap ++ [s]) (idx + 1) chunks'
    else
      let current'' := if current ≠ [] then current ++ ' ' :: s else s
      chunkLoop digest cfg page_number rest current'' (sents ++ [s]) idx chunks

/-- Embedding of `DocumentProcessor.chunk_text`: empty/whitespace-only input produces no
chunks; otherwise split into sentences and run the accumulation loop. -/
def chunkText (digest : List Char → String) (cfg : ChunkConfig)
    (text : List Char) (page_number : Option Nat) : List ChunkInfo :=
  if pyStrip text = [] then []
  else chunkLoop digest cfg page_number (splitIntoSentences text) [] [] 0 []

/-! ## Retrieval fusion (`advanced_search.py`)

A per-method search result (`db_manager.similarity_search` /
`db_manager.text_search` row): only the fields read by the fusion code are
modelled. -/

/-- One per-method retrieval result row. -/
structure SearchRow where
  document_id : String
  chunk_id : String
  similarity_score : ℚ
deriving Repr, DecidableEq

/-- The merged-hit dictionary value built by
`AdvancedSearchService._merge_search_results` (`{**result, 'semantic_score':
..., 'keyword_score': ..., 'search_methods': ...}`). -/
structure HybridHit where
  document_id : String
  chunk_id : String
  similarity_score : ℚ
  semantic_score : ℚ
  keyword_score : ℚ
  search_methods : List String
deriving Repr, DecidableEq

/-- Embedding of `AdvancedSearchService._get_result_key`:
`f"{result.get('document_id', '')}_{result.get('chunk_id', '')}"`. -/
def resultKey (r : SearchRow) : String :=
  r.document_id ++ "_" ++ r.chunk_id

/-- Python-dict lookup on an insertion-ordered association list. -/
def dictGet (k : String) (m : List (String × HybridHit)) : Option HybridHit :=
  (m.find? (fun p => p.1 = k)).map Prod.snd

/-- Python-dict assignment `m[k] = v`: replace the value in place when the
key is present, append otherwise. -/
def dictSet (k : String) (v : HybridHit) (m : List (String × HybridHit)) :
    List (String × HybridHit) :=
  if (m.find? (fun p => p.1 = k)).isSome then
    m.map (fun p => if p.1 = k then (k, v) else p)
  else
    m ++ [(k, v)]

/-- The fresh record a semantic result creates in `_merge_search_results`. -/
def semRecord (r : SearchRow) : HybridHit :=
  { document_id := r.document_id
    chunk_id := r.chunk_id
    similarity_score := r.similarity_score
    semantic_score := r.similarity_score
    keyword_score := 0
    search_methods := ["semantic"] }

/-- The fresh record a keyword result creates in `_merge_search_results` when
its key has not been seen. -/
def kwRecord (r : SearchRow) : HybridHit :=
  { document_id := r.document_id
    chunk_id := r.chunk_id
    similarity_score := r.similarity_score
    semantic_score := 0
    keyword_score := r.similarity_score
    search_methods := ["keyword"] }

/-- The keyword pass of `_merge_search_results`: update the existing record
in place (`merged[key]['keyword_score'] = ...; ...append('keyword')`) or
create a keyword-only record. -/
def kwStep (m : List (String × HybridHit)) (r : SearchRow) :
    List (String × HybridHit) :=
  match dictGet (resultKey r) m with
  | some e =>
    dictSet (resultKey r)
      { e with keyword_score := r.similarity_score
               search_methods := e.search_methods ++ ["keyword"] } m
  | none => dictSet (resultKey r) (kwRecord r) m

/-- Embedding of `AdvancedSearchService._merge_search_results`: insert all semantic
results into an (insertion-ordered) dictionary, then fold the keyword
results over it, and return the dictionary's values. -/
def mergeSearchResults (semantic_results keyword_results : List SearchRow) :
    List HybridHit :=
  let afterSem := semantic_results.foldl
    (fun m r => dictSet (resultKey r) (semRecord r) m) []
  (keyword_results.foldl kwStep afterSem).map Prod.snd

/-- The per-hit score update of `_rerank_hybrid_results`:
`combined = semantic*0.7 + keyword*0.3`, boosted by `1.1` when more than one
search method matched, stored back into `similarity_score`. -/
def scoreUpdate (r : HybridHit) : HybridHit :=
  let combined := r.semantic_score * (7/10) + r.keyword_score * (3/10)
  let combined := if r.search_methods.length > 1 then combined * (11/10) else combined
  { r with similarity_score := combined }

/-- Python `sorted(l, key=key, reverse=True)`: the stable descending sort by
the given key (earlier elements stay first among equal keys). -/
def pySortDescBy (key : HybridHit → ℚ) (l : List HybridHit) : List HybridHit :=
  l.insertionSort (fun a b => key b ≤ key a)

/-- Embedding of `AdvancedSearchService._rerank_hybrid_results`: update every hit's
`similarity_score` to the weighted/boosted combination, then stably sort by
it in descending order.  The `query` argument is unused by the source body. -/
def rerankHybridResults (results : List HybridHit) (query : String) : List HybridHit :=
  let _ := query
  pySortDescBy (fun h => h.similarity_score) (results.map scoreUpdate)

/-- Modelled from the spec: the storage collaborator's
`vectorSearch(embedding, limit, threshold) → [(chunkId, documentId, content,
pageNumber, score)]` (the body of `db_manager.similarity_search` only
forwards `limit` as the `match_count` of a database RPC, which is not part of
this repository).  The collaborator's threshold-qualified candidate ranking
is abstracted as the input list `corpus`, of which the first `limit` rows are
returned. -/
def vectorSearch (corpus : List SearchRow) (limit : Nat) : List SearchRow :=
  corpus.take limit

/-- Modelled from the spec: the storage collaborator's
`lexicalSearch(terms, limit)` (`db_manager.text_search` is called by
`_keyword_search` but not defined in this repository).  As for
`vectorSearch`, the ranking is abstracted as `corpus` and truncated to
`limit`. -/
def lexicalSearch (corpus : List SearchRow) (limit : Nat) : List SearchRow :=
  corpus.take limit

/-- Embedding of `AdvancedSearchService._semantic_search`: embed the query and ask the
storage collaborator for at most `max_results` rows. -/
def semanticSearch (corpus : List SearchRow) (max_results : Nat) : List SearchRow :=
  vectorSearch corpus max_results

/-- Embedding of `AdvancedSearchService._keyword_search`: ask the storage collaborator
for at most `max_results` rows of lexical matches. -/
def keywordSearch (corpus : List SearchRow) (max_results : Nat) : List SearchRow :=
  lexicalSearch corpus max_results

/-- Embedding of `AdvancedSearchService._hybrid_search` (lines 237-252): fetch semantic
and keyword results with per-method limit `max_results // 2`, merge,
re-rank, and truncate the ranked list to `max_results`. -/
def hybridSearch (semCorpus kwCorpus : List SearchRow) (query : String)
    (max_results : Nat) : List HybridHit :=
  let semantic_results := semanticSearch semCorpus (max_results / 2)
  let keyword_results := keywordSearch kwCorpus (max_results / 2)
  let combined_results := mergeSearchResults semantic_results keyword_results
  let ranked_results := rerankHybridResults combined_results query
  ranked_results.take max_results

/-! ## Facet aggregation (`advanced_search.py`, `_generate_facets`) -/

/-- Python string comparison (`<` on `str`): lexicographic by code point. -/
def pyStrLtChars : List Char → List Char → Bool
  | [], [] => false
  | [], _ :: _ => true
  | _ :: _, [] => false
  | a :: as, b :: bs => if a < b then true else if b < a then false else pyStrLtChars as bs

/-- Python `s1 <= s2` on strings. -/
def pyStrLe (a b : String) : Bool :=
  !(pyStrLtChars b.data a.data)

/-- Python `str.upper()` (ASCII as used here). -/
def pyUpper (s : String) : String :=
  String.mk (s.data.map Char.toUpper)

/-- Python `str.title()`, restricted to the single-word level names it is
applied to here: first character upper-cased, the rest lower-cased. -/
def pyTitle (s : String) : String :=
  match s.data with
  | [] => ""
  | c :: r => String.mk (Char.toUpper c :: r.map Char.toLower)

/-- A search-result row as read by `_generate_facets`
(`result.get('document_name', '')`, `result.get('similarity_score', 0)`,
`result.get('page_number', 0)`): only those three fields are modelled, with
the `.get` defaults folded into the field values. -/
structure FacetInput where
  document_name : String
  similarity_score : ℚ
  page_number : Nat
deriving Repr, DecidableEq

/-- One facet entry `{"value": ..., "count": ..., "label": ...}`. -/
structure FacetBucket where
  value : String
  count : Nat
  label : String
deriving Repr, DecidableEq

/-- Embedding of `AdvancedSearchService._get_document_type`: lower-cased extension when it
is one of `pdf`, `pptx`, `docx`, `txt`; otherwise `unknown`. -/
def getDocumentType (filename : String) : String :=
  if filename = "" then "unknown"
  else
    let lower := filename.data.map Char.toLower
    let extension :=
      if '.' ∈ lower then (lower.reverse.takeWhile (fun c => c ≠ '.')).reverse else []
    if extension = "pdf".data ∨ extension = "pptx".data ∨ extension = "docx".data ∨
        extension = "txt".data then
      String.mk extension
    else "unknown"

/-- Python `defaultdict(int)` increment: bump the count stored under `k`. -/
def bump (m : List (String × Nat)) (k : String) : List (String × Nat) :=
  if (m.find? (fun p => p.1 = k)).isSome then
    m.map (fun p => if p.1 = k then (p.1, p.2 + 1) else p)
  else
    m ++ [(k, 1)]

/-- Python `defaultdict(int)` read: the stored count, defaulting to `0`. -/
def dictCount (m : List (String × Nat)) (k : String) : Nat :=
  (((m.find? (fun p => p.1 = k)).map Prod.snd)).getD 0

/-- Python `sorted(d.items())` for a counter dictionary: ascending by key
(the keys are pairwise distinct, so the tuple order is decided by the key). -/
def sortPairsByKey (m : List (String × Nat)) : List (String × Nat) :=
  m.insertionSort (fun a b => pyStrLe a.1 b.1)

/-- The `document_type` facet of `_generate_facets`: count by document type
and emit buckets in ascending key order with upper-cased labels. -/
def documentTypeBuckets (results : List FacetInput) : List FacetBucket :=
  let doc_types := results.foldl (fun m r => bump m (getDocumentType r.document_name)) []
  (sortPairsByKey doc_types).map (fun p => ⟨p.1, p.2, pyUpper p.1⟩)

/-- The confidence bucketing of `_generate_facets`: `≥ 0.8 → high`,
`≥ 0.6 → medium`, else `low`. -/
def confidenceLevel (score : ℚ) : String :=
  if score ≥ 8/10 then "high" else if score ≥ 6/10 then "medium" else "low"

/-- The `confidence_level` facet of `_generate_facets`: count by level and
emit buckets sorted by level name with title-cased labels. -/
def confidenceLevelBuckets (results : List FacetInput) : List FacetBucket :=
  let levels := results.foldl (fun m r => bump m (confidenceLevel r.similarity_score)) []
  (sortPairsByKey levels).map (fun p => ⟨p.1, p.2, pyTitle p.1⟩)

/-- The page bucketing of `_generate_facets`: `≤ 10`, `≤ 50`, `≤ 100`,
else `100+`. -/
def pageRangeKey (n : Nat) : String :=
  if n ≤ 10 then "1-10" else if n ≤ 50 then "11-50" else if n ≤ 100 then "51-100" else "100+"

/-- The `page_range` facet of `_generate_facets`: fixed bucket order, empty
buckets omitted, labels `Pages <range>`. -/
def pageRangeBuckets (results : List FacetInput) : List FacetBucket :=
  let page_ranges := results.foldl (fun m r => bump m (pageRangeKey r.page_number)) []
  (([("1-10", dictCount page_ranges "1-10"), ("11-50", dictCount page_ranges "11-50"),
     ("51-100", dictCount page_ranges "51-100"), ("100+", dictCount page_ranges "100+")]
    : List (String × Nat)).filter (fun p => p.2 > 0)).map
    (fun p => ⟨p.1, p.2, "Pages " ++ p.1⟩)

/-- The call `await self._analyze_content_categories(results)` at the end of
`_generate_facets`: the service class defines no method (and no attribute) of
that name anywhere in the repository, so evaluating the call raises
`AttributeError`.  The facets accumulated so far are discarded by the
exception. -/
def analyzeContentCategories (_facetsSoFar : List (String × List FacetBucket))
    (_results : List FacetInput) : Except String (List (String × List FacetBucket)) :=
  .error "AttributeError: 'AdvancedSearchService' object has no attribute '_analyze_content_categories'"

/-- Embedding of `AdvancedSearchService._generate_facets` (lines 298-363): empty result
lists short-circuit to an empty facet mapping; otherwise the document-type,
confidence and page-range facets are accumulated and the content-category
step is reached, which raises (see `analyzeContentCategories`). -/
def generateFacets (results : List FacetInput) :
    Except String (List (String × List FacetBucket)) :=
  if results = [] then .ok []
  else
    let facets := [("document_type", documentTypeBuckets results),
                   ("confidence_level", confidenceLevelBuckets results),
                   ("page_range", pageRangeBuckets results)]
    analyzeContentCategories facets results

/-! ## Duplicate classification (`document_deduplication.py`) -/

/-- An existing document row as read by the deduplication paths: only the
fields those paths consume are modelled. -/
structure ExistingDoc where
  id : String
  file_name : String
  content_hash : String
deriving Repr, DecidableEq

/-- A match candidate dictionary (`{**existing_doc, "match_type": ...,
"similarity_score": ..., "similarity_reason": ...}`); the exact-content
method attaches no reason. -/
structure MatchCand where
  id : String
  file_name : String
  match_type : String
  similarity_score : ℚ
  similarity_reason : Option String
deriving Repr, DecidableEq

/-- Modelled from the spec: the storage collaborator's
`findByExactHash(hash) → ExistingDocument?`
(`db_manager.find_document_by_content_hash` is called by
`_check_exact_content_match` but not defined in this repository): the first
stored document whose persisted exact hash equals the digest. -/
def findByExactHash (docs : List ExistingDoc) (h : String) : Option ExistingDoc :=
  docs.find? (fun d => d.content_hash = h)

/-- Embedding of `DocumentDeduplicationService._check_exact_content_match`: digest the
full byte content and look it up; on a hit, return the stored document
extended with `match_type = "exact_content"`, `similarity_score = 1.0`. -/
def checkExactContentMatch (sha256hex : List Nat → String)
    (docs : List ExistingDoc) (file_content : List Nat) : Option MatchCand :=
  match findByExactHash docs (sha256hex file_content) with
  | some d => some ⟨d.id, d.file_name, "exact_content", 1, none⟩
  | none => none

/-- The result dictionary of
`DocumentDeduplicationService.check_for_duplicates`. -/
structure DedupResult where
  is_duplicate : Bool
  confidence : ℚ
  duplicate_type : Option String
  existing_document : Option MatchCand
  recommendations : List String
  similar_documents : List MatchCand
  action : String
deriving Repr, DecidableEq

/-- One update step of `_consolidate_matches`: skip matches with a falsy
document id, otherwise keep the entry with the strictly greater
`similarity_score` (an equal score keeps the earlier entry). -/
def consolidateStep (m : List (String × MatchCand)) (x : MatchCand) :
    List (String × MatchCand) :=
  if x.id = "" then m
  else
    match (m.find? (fun p => p.1 = x.id)).map Prod.snd with
    | none => m ++ [(x.id, x)]
    | some e =>
      if x.similarity_score > e.similarity_score then
        m.map (fun p => if p.1 = x.id then (x.id, x) else p)
      else m

/-- Embedding of `DocumentDeduplicationService._consolidate_matches`: iterate the
filename, content and semantic match lists in that order, keeping one entry
per document id with the highest similarity score, and return the
dictionary's values. -/
def consolidateMatches (filename_matches content_matches semantic_matches : List MatchCand) :
    List MatchCand :=
  ((filename_matches ++ content_matches ++ semantic_matches).foldl consolidateStep []).map
    Prod.snd

/-- Python `max(b :: rest, key=lambda x: x['similarity_score'])`: the first
element attaining the maximal score (`max` replaces its candidate only on a
strictly greater key). -/
def pyMaxFrom (b : MatchCand) (rest : List MatchCand) : MatchCand :=
  rest.foldl (fun best m => if m.similarity_score > best.similarity_score then m else best) b

/-- Embedding of `DocumentDeduplicationService._determine_action`. -/
def determineAction (best : MatchCand) : String :=
  if best.similarity_score ≥ 95/100 then "skip"
  else if best.similarity_score ≥ 90/100 then
    (if best.match_type = "semantic" then "merge" else "replace")
  else if best.similarity_score ≥ 85/100 then "review"
  else "proceed"

/-- Embedding of `DocumentDeduplicationService._generate_recommendations`. -/
def generateRecommendations (best : MatchCand) (all_matches : List MatchCand) :
    List String :=
  (if best.similarity_score ≥ 95/100 then
    ["⚠️  Near-identical document found: " ++ best.file_name,
     "💡 Recommend skipping upload to save storage costs"]
  else if best.similarity_score ≥ 90/100 then
    ["📄 Very similar document exists: " ++ best.file_name] ++
    (if best.match_type = "filename" then
      ["💡 This may be an updated version - consider replacing the old document"]
    else if best.match_type = "semantic" then
      ["💡 Similar content detected - review for potential consolidation"]
    else [])
  else if best.similarity_score ≥ 85/100 then
    ["🔍 Similar document found: " ++ best.file_name,
     "💡 Manual review recommended before uploading"]
  else []) ++
  (if all_matches.length > 1 then
    ["📊 Found " ++ toString all_matches.length ++ " similar documents total",
     "💡 Consider organizing related documents in collections"]
  else [])

/-- The initial `results` dictionary of `check_for_duplicates`. -/
def dedupDefault : DedupResult :=
  { is_duplicate := false
    confidence := 0
    duplicate_type := none
    existing_document := none
    recommendations := []
    similar_documents := []
    action := "proceed" }

/-- Embedding of `DocumentDeduplicationService.check_for_duplicates` (lines 27-109).  The
SHA-256 hex digest is abstracted as `sha256hex`, and the three non-exact
detection methods (`_check_filename_similarity`, `_check_content_similarity`,
`_check_semantic_similarity`, which query external collaborators and a
`difflib` scorer) enter the model as their result lists `filename_matches`,
`content_matches` and `semantic_matches`; the exact-content method, the
consolidation and the decision logic are embedded from the source. -/
def checkForDuplicates (sha256hex : List Nat → String) (docs : List ExistingDoc)
    (file_name : String) (file_content : List Nat)
    (filename_matches content_matches semantic_matches : List MatchCand) : DedupResult :=
  let _ := file_name
  match checkExactContentMatch sha256hex docs file_content with
  | some exact_match =>
    { dedupDefault with
        is_duplicate := true
        confidence := 1
        duplicate_type := some "exact_content"
        existing_document := some exact_match
        action := "skip"
        recommendations :=
          ["Identical document already exists: " ++ exact_match.file_name,
           "Recommend skipping upload to save storage and processing costs"] }
  | none =>
    let all_matches := consolidateMatches filename_matches content_matches semantic_matches
    match all_matches with
    | [] => dedupDefault
    | b :: rest =>
      let best_match := pyMaxFrom b rest
      if best_match.similarity_score ≥ 85/100 then
        { dedupDefault with
            is_duplicate := true
            confidence := best_match.similarity_score
            duplicate_type := some best_match.match_type
            existing_document := some best_match
            similar_documents := all_matches.take 5
            action := determineAction best_match
            recommendations := generateRecommendations best_match all_matches }
      else
        { dedupDefault with
            similar_documents := all_matches.take 3
            recommendations :=
              ["Similar documents found - consider organizing in same category",
               "Review existing content before uploading to avoid redundancy"] }

/-! ## Content fingerprints (`document_deduplication.py`, lines 306-333) -/

/-- Python `content[-1024:]` on bytes (only reached when `size > 1024`). -/
def pyLastBytes (content : List Nat) (k : Nat) : List Nat :=
  content.drop (content.length - k)

/-- Embedding of `DocumentDeduplicationService._create_content_fingerprint`, with the
truncated MD5 hex digest `hashlib.md5(...).hexdigest()[:8]` abstracted as
`md5hex8`: `f"{start_hash}_{end_hash}_{size}"`, where the end digest reuses
the start digest for contents of at most 1024 bytes.  The function is total:
on empty content both slices are the empty byte string. -/
def createContentFingerprint (md5hex8 : List Nat → String) (content : List Nat) : String :=
  let size := content.length
  let start_hash := md5hex8 (content.take 1024)
  let end_hash := if size > 1024 then md5hex8 (pyLastBytes content 1024) else start_hash
  start_hash ++ "_" ++ end_hash ++ "_" ++ toString size

/-- Python `str.split('_')`. -/
def splitUnderscore : List Char → List (List Char)
  | [] => [[]]
  | c :: rest =>
    if c = '_' then [] :: splitUnderscore rest
    else
      match splitUnderscore rest with
      | [] => [[c]]
      | p :: ps => (c :: p) :: ps

/-- Python `int(s)` restricted to the plain digit strings produced for the
size field of a fingerprint (signs and surrounding whitespace, which `int`
would also accept, never occur there). -/
def pyInt (s : List Char) : Option Nat :=
  if s ≠ [] ∧ s.all Char.isDigit then
    some (s.foldl (fun n c => n * 10 + (c.toNat - '0'.toNat)) 0)
  else none

/-- Embedding of `DocumentDeduplicationService._compare_content_fingerprints`: split both
fingerprints on `_`; anything other than three parts scores `0.0`; otherwise
compare start digests (weight 0.4), end digests (weight 0.4) and sizes
(weight 0.2, via `1 - |size1-size2| / max(size1, size2)`).  The division
raises `ZeroDivisionError` when both sizes are `0`; a non-numeric size field
would raise `ValueError`.  Exceptions are modelled in `Except`. -/
def compareContentFingerprints (fp1 fp2 : String) : Except String ℚ :=
  match splitUnderscore fp1.data, splitUnderscore fp2.data with
  | [a1, b1, c1], [a2, b2, c2] =>
    let start_sim : ℚ := if a1 = a2 then 1 else 0
    let end_sim : ℚ := if b1 = b2 then 1 else 0
    match pyInt c1, pyInt c2 with
    | some size1, some size2 =>
      if max size1 size2 = 0 then
        .error "ZeroDivisionError: division by zero"
      else
        let size_diff : ℚ := |(size1 : ℚ) - (size2 : ℚ)| / (max size1 size2 : ℚ)
        let size_sim : ℚ := max 0 (1 - size_diff)
        .ok (start_sim * (2/5) + end_sim * (2/5) + size_sim * (1/5))
    | _, _ => .error "ValueError: invalid literal for int()"
  | _, _ => .ok 0

/-! ## Merge operation (`document_deduplication.py`, lines 396-445, and
`database.py`) -/

/-- A metadata value as stored in a document's JSONB metadata. -/
inductive MetaVal where
  | s (v : String)
  | list (vs : List String)
  | n (v : Nat)
deriving Repr, DecidableEq

/-- A stored document row as touched by the merge operation. -/
structure StoredDoc where
  id : String
  file_name : String
  processing_status : String
  metadata : List (String × MetaVal)
deriving Repr, DecidableEq

/-- Read a metadata key. -/
def metaLookup (m : List (String × MetaVal)) (k : String) : Option MetaVal :=
  (m.find? (fun p => p.1 = k)).map Prod.snd

/-- Upsert a metadata key (replace in place, else append). -/
def metaSet (m : List (String × MetaVal)) (k : String) (v : MetaVal) :
    List (String × MetaVal) :=
  if (m.find? (fun p => p.1 = k)).isSome then
    m.map (fun p => if p.1 = k then (k, v) else p)
  else m ++ [(k, v)]

/-- Merge a metadata patch into stored metadata, key by key. -/
def metaMerge (base patch : List (String × MetaVal)) : List (String × MetaVal) :=
  patch.foldl (fun m kv => metaSet m kv.1 kv.2) base

/-- Modelled from the spec: the storage collaborator's
`getById(id) → ExistingDocument?` (`db_manager.get_document_by_id` is called
by `merge_similar_documents` but not defined in this repository; the
analogous `DatabaseManager.get_document` returns the first row matching the
id, or `None`). -/
def getDocumentById (db : List StoredDoc) (i : String) : Option StoredDoc :=
  db.find? (fun d => d.id = i)

/-- Embedding of `DatabaseManager.update_document_status` (database.py lines 144-156): a
SQL `UPDATE ... WHERE id = ...`; every matching row's status is set, and the
call reports success whether or not any row matched. -/
def updateDocumentStatus (db : List StoredDoc) (i : String) (status : String) :
    List StoredDoc :=
  db.map (fun d => if d.id = i then { d with processing_status := status } else d)

/-- Modelled from the spec: the storage collaborator's
`updateMetadata(id, patch)` (`db_manager.update_document_metadata` is called
by `merge_similar_documents` but not defined in this repository): merge the
patch into every matching row's metadata; a no-op when no row matches. -/
def updateDocumentMetadata (db : List StoredDoc) (i : String)
    (patch : List (String × MetaVal)) : List StoredDoc :=
  db.map (fun d => if d.id = i then { d with metadata := metaMerge d.metadata patch } else d)

/-- The success dictionary returned by `merge_similar_documents`.  The
`except` branch (`{"success": False, "error": ...}`) is unreachable in the
model because every modelled storage call is total. -/
structure MergeOutcome where
  success : Bool
  primary_document : String
  merged_documents : List String
  total_documents_affected : Nat
deriving Repr, DecidableEq

/-- Embedding of `DocumentDeduplicationService.merge_similar_documents`: fetch the primary
(unused beyond logging), resolve the secondaries that exist, patch the
primary's metadata, then mark every given secondary id as merged and
back-reference the primary.  `now` stands for `datetime.now().isoformat()`.
No id is validated: unresolvable ids only shrink `secondary_docs`. -/
def mergeSimilarDocuments (now : String) (db : List StoredDoc)
    (primary_doc_id : String) (secondary_doc_ids : List String) :
    MergeOutcome × List StoredDoc :=
  let _primary_doc := getDocumentById db primary_doc_id
  let secondary_docs := secondary_doc_ids.filterMap (getDocumentById db)
  let merged_metadata : List (String × MetaVal) :=
    [("merged_from", .list secondary_doc_ids),
     ("merge_date", .s now),
     ("original_filenames", .list (secondary_docs.map (fun d => d.file_name))),
     ("merge_reason", .s "duplicate_detection"),
     ("total_merged_documents", .n (secondary_docs.length + 1))]
  let db1 := updateDocumentMetadata db primary_doc_id merged_metadata
  let db2 := secondary_doc_ids.foldl
    (fun acc i =>
      updateDocumentMetadata (updateDocumentStatus acc i "merged") i
        [("merged_into", .s primary_doc_id), ("merge_date", .s now)])
    db1
  ({ success := true
     primary_document := primary_doc_id
     merged_documents := secondary_doc_ids
     total_documents_affected := secondary_docs.length + 1 }, db2)

/-! ## Statement helpers -/

/-- The well-formed shapes of a merged hit's `search_methods` list. -/
def methodsOk (v : HybridHit) : Prop :=
  v.search_methods = ["semantic"] ∨ v.search_methods = ["keyword"] ∨
    v.search_methods = ["semantic", "keyword"]

/-- The ordering the specification claims for reranked hits: descending
fused score, ties broken by descending raw semantic score, then by ascending
`chunkId`. -/
def specClaimedOrder (l : List HybridHit) : Prop :=
  l.Pairwise (fun a b =>
    b.similarity_score < a.similarity_score ∨
    (b.similarity_score = a.similarity_score ∧
      (b.semantic_score < a.semantic_score ∨
        (b.semantic_score = a.semantic_score ∧ pyStrLe a.chunk_id b.chunk_id = true))))

/-- The merged hit produced by the specification's fusion scenario
(`semanticHits = [(d1,c1) ↦ 0.9]`, `keywordHits = [(d1,c1) ↦ 0.6]`). -/
def scenarioHit : HybridHit :=
  { document_id := "d1"
    chunk_id := "c1"
    similarity_score := 891/1000
    semantic_score := 9/10
    keyword_score := 6/10
    search_methods := ["semantic", "keyword"] }

/-- One step of Python `max(..., key=score)` lifted to `Option`: keep the
candidate unless the new element's score is strictly greater (so the first
element attaining the maximum wins). -/
def consolPick (acc : Option MatchCand) (x : MatchCand) : Option MatchCand :=
  match acc with
  | none => some x
  | some b => if x.similarity_score > b.similarity_score then some x else some b

/-- The first element of a list attaining the maximal similarity score
(`none` on an empty list). -/
def firstMaxByScore (l : List MatchCand) : Option MatchCand :=
  l.foldl consolPick none

/-- Association-list lookup for the consolidation dictionary. -/
def clookup (i : String) (m : List (String × MatchCand)) : Option MatchCand :=
  (m.find? (fun p => p.1 = i)).map Prod.snd

/-- The per-document transformation applied by one iteration of the
secondary-document loop of `merge_similar_documents` for secondary id `i`:
rows matching `i` are marked `merged` and back-referenced to the primary,
other rows are untouched. -/
def gMark (now p i : String) (d : StoredDoc) : StoredDoc :=
  if d.id = i then
    { d with processing_status := "merged"
             metadata := metaMerge d.metadata
               [("merged_into", .s p), ("merge_date", .s now)] }
  else d

end RagCore

namespace RagCore

/-! ## Fusion lemmas -/

theorem mem_dictSet {k : String} {v : HybridHit} {m : List (String × HybridHit)}
    {p : String × HybridHit} (hp : p ∈ dictSet k v m) : p = (k, v) ∨ p ∈ m := by
  unfold dictSet at hp
  split at hp
  · rcases List.mem_map.1 hp with ⟨q, hq, he⟩
    by_cases h : q.1 = k
    · simp only [h, if_pos] at he
      exact Or.inl he.symm
    · simp only [h, if_neg, not_false_iff] at he
      exact Or.inr (he ▸ hq)
  · rcases List.mem_append.1 hp with h | h
    · exact Or.inr h
    · exact Or.inl (List.mem_singleton.1 h)

theorem dictGet_some {k : String} {m : List (String × HybridHit)} {e : HybridHit}
    (h : dictGet k m = some e) : ∃ q ∈ m, q.1 = k ∧ q.2 = e := by
  unfold dictGet at h
  rcases Option.map_eq_some'.1 h with ⟨q, hq, he⟩
  exact ⟨q, List.mem_of_find?_eq_some hq, by
    have := List.find?_some hq
    simpa using this, he⟩

theorem semFold_methods (sem : List SearchRow) :
    ∀ m : List (String × HybridHit),
      (∀ p ∈ m, p.2.search_methods = ["semantic"]) →
      ∀ p ∈ sem.foldl (fun m r => dictSet (resultKey r) (semRecord r) m) m,
        p.2.search_methods = ["semantic"] := by
  intro m hm
  induction sem generalizing m with
  | nil => simpa using hm
  | cons r rest ih =>
    intro p hp
    refine ih (dictSet (resultKey r) (semRecord r) m) ?_ p hp
    intro q hq
    rcases mem_dictSet hq with h | h
    · simp [h, semRecord]
    · exact hm q h

theorem kwFold_methods (kw : List SearchRow) :
    ∀ m : List (String × HybridHit),
      (kw.map resultKey).Nodup →
      (∀ p ∈ m, methodsOk p.2) →
      (∀ p ∈ m, p.1 ∈ kw.map resultKey → p.2.search_methods = ["semantic"]) →
      ∀ p ∈ kw.foldl kwStep m, methodsOk p.2 := by
  intro m hnd hm1 hm2
  induction kw generalizing m with
  | nil => simpa using hm1
  | cons r rest ih =>
    rw [List.map_cons, List.nodup_cons] at hnd
    have hnotin : resultKey r ∉ rest.map resultKey := hnd.1
    have hndrest : (rest.map resultKey).Nodup := hnd.2
    intro p hp
    simp only [List.foldl_cons] at hp
    refine ih (kwStep m r) hndrest ?_ ?_ p hp
    · -- methods shapes hold after one keyword step
      intro q hq
      unfold kwStep at hq
      cases hfind : dictGet (resultKey r) m with
      | some e =>
        rw [hfind] at hq
        rcases mem_dictSet hq with h | h
        · rcases dictGet_some hfind with ⟨w, hw, hwk, hwe⟩
          have he : e.search_methods = ["semantic"] := by
            have := hm2 w hw (by simp [hwk])
            simpa [hwe] using this
          right; right
          simp [h, he]
        · exact hm1 q h
      | none =>
        rw [hfind] at hq
        rcases mem_dictSet hq with h | h
        · right; left; simp [h, kwRecord]
        · exact hm1 q h
    · -- entries keyed by a yet-unprocessed keyword key still look semantic
      intro q hq hqk
      unfold kwStep at hq
      cases hfind : dictGet (resultKey r) m with
      | some e =>
        rw [hfind] at hq
        rcases mem_dictSet hq with h | h
        · exfalso
          apply hnotin
          have : q.1 = resultKey r := by simp [h]
          exact this ▸ hqk
        · exact hm2 q h (List.mem_cons_of_mem _ hqk)
      | none =>
        rw [hfind] at hq
        rcases mem_dictSet hq with h | h
        · exfalso
          apply hnotin
          have : q.1 = resultKey r := by simp [h]
          exact this ▸ hqk
        · exact hm2 q h (List.mem_cons_of_mem _ hqk)

theorem mergeSearchResults_methodsOk (sem kw : List SearchRow)
    (hkw : (kw.map resultKey).Nodup) :
    ∀ h ∈ mergeSearchResults sem kw, methodsOk h := by
  intro h hmem
  unfold mergeSearchResults at hmem
  rcases List.mem_map.1 hmem with ⟨p, hp, hph⟩
  have base := semFold_methods sem [] (by simp)
  have := kwFold_methods kw _ hkw
    (fun q hq => Or.inl (base q hq))
    (fun q hq _ => base q hq) p hp
  exact hph ▸ this

theorem mem_pySortDescBy {key : HybridHit → ℚ} {l : List HybridHit} {h : HybridHit} :
    h ∈ pySortDescBy key l ↔ h ∈ l :=
  (List.perm_insertionSort _ l).mem_iff

/-- Claim C2. For every pair of per-method result sets (sets: no repeated
per-method identity key), each fused hit's score equals
`0.7 × semanticScore + 0.3 × keywordScore`, multiplied by `1.1` exactly when
both methods contributed to that hit. -/
theorem fusedScoreFormula (sem kw : List SearchRow) (q : String) (h : HybridHit)
    (hkw : (kw.map resultKey).Nodup)
    (hmem : h ∈ rerankHybridResults (mergeSearchResults sem kw) q) :
    h.similarity_score =
      ((7 : ℚ)/10 * h.semantic_score + (3 : ℚ)/10 * h.keyword_score) *
        (if "semantic" ∈ h.search_methods ∧ "keyword" ∈ h.search_methods
         then (11 : ℚ)/10 else 1) := by
  simp only [rerankHybridResults] at hmem
  rcases List.mem_map.1 (mem_pySortDescBy.1 hmem) with ⟨r, hr, hrh⟩
  have hok := mergeSearchResults_methodsOk sem kw hkw r hr
  subst hrh
  rcases hok with hs | hs | hs <;>
    simp [scoreUpdate, hs] <;> ring

/-- Claim C2 witness: the specification's concrete scenario — semantic hit
`(d1,c1) ↦ 0.9` and keyword hit `(d1,c1) ↦ 0.6` fuse to the single hit
`scenarioHit` with score `(0.7×0.9 + 0.3×0.6) × 1.1 = 0.891`, which satisfies
the proved formula. -/
theorem fusedScoreFormulaWitness :
    (([(⟨"d1", "c1", 6/10⟩ : SearchRow)]).map resultKey).Nodup ∧
    scenarioHit ∈
      rerankHybridResults
        (mergeSearchResults [⟨"d1", "c1", 9/10⟩] [⟨"d1", "c1", 6/10⟩]) "q" ∧
    scenarioHit.similarity_score = (891 : ℚ)/1000 ∧
    scenarioHit.similarity_score =
      ((7 : ℚ)/10 * scenarioHit.semantic_score +
        (3 : ℚ)/10 * scenarioHit.keyword_score) *
        (if "semantic" ∈ scenarioHit.search_methods ∧
            "keyword" ∈ scenarioHit.search_methods
         then (11 : ℚ)/10 else 1) := by
  have hnd : (([(⟨"d1", "c1", 6/10⟩ : SearchRow)]).map resultKey).Nodup := by simp
  have hmem : scenarioHit ∈
      rerankHybridResults
        (mergeSearchResults [⟨"d1", "c1", 9/10⟩] [⟨"d1", "c1", 6/10⟩]) "q" := by
    simp only [rerankHybridResults, mergeSearchResults, kwStep, dictGet, dictSet,
      semRecord, kwRecord, resultKey, scoreUpdate, pySortDescBy,
      List.insertionSort, List.orderedInsert, List.foldl, List.find?, List.map]
    norm_num [scenarioHit]
  exact ⟨hnd, hmem, by norm_num [scenarioHit],
    fusedScoreFormula [⟨"d1", "c1", 9/10⟩] [⟨"d1", "c1", 6/10⟩] "q" scenarioHit hnd hmem⟩

/-! ## Stable-sort lemmas for the rerank ordering -/

theorem filter_orderedInsert_eq (key : HybridHit → ℚ) (s : ℚ) (x : HybridHit)
    (l : List HybridHit) (hx : key x = s) :
    (List.orderedInsert (fun a b => key b ≤ key a) x l).filter
        (fun y => key y = s) =
      x :: l.filter (fun y => key y = s) := by
  induction l with
  | nil => simp [List.orderedInsert, hx]
  | cons b t ih =>
    simp only [List.orderedInsert]
    by_cases hb : key b ≤ key x
    · rw [if_pos hb]
      simp [List.filter_cons, hx]
    · rw [if_neg hb]
      have hbs : ¬ key b = s := fun he => hb (le_of_eq (he.trans hx.symm))
      simp [List.filter_cons, hbs, ih]

theorem filter_orderedInsert_ne (key : HybridHit → ℚ) (s : ℚ) (x : HybridHit)
    (l : List HybridHit) (hx : ¬ key x = s) :
    (List.orderedInsert (fun a b => key b ≤ key a) x l).filter
        (fun y => key y = s) =
      l.filter (fun y => key y = s) := by
  induction l with
  | nil => simp [List.orderedInsert, hx]
  | cons b t ih =>
    simp only [List.orderedInsert]
    by_cases hb : key b ≤ key x
    · rw [if_pos hb]
      simp [List.filter_cons, hx]
    · rw [if_neg hb]
      by_cases hbs : key b = s <;> simp [List.filter_cons, hbs, ih]

theorem filter_pySortDescBy (key : HybridHit → ℚ) (s : ℚ) (l : List HybridHit) :
    (pySortDescBy key l).filter (fun y => key y = s) =
      l.filter (fun y => key y = s) := by
  induction l with
  | nil => rfl
  | cons x t ih =>
    show (List.orderedInsert _ x (pySortDescBy key t)).filter _ = _
    by_cases hx : key x = s
    · rw [filter_orderedInsert_eq key s x _ hx, ih]
      simp [hx]
    · rw [filter_orderedInsert_ne key s x _ hx, ih]
      simp [hx]

/-- Claim C4, amended. Reranking is the stable sort of the score-updated
merged hits by descending fused score alone: the output is sorted by
descending `similarity_score`, is a permutation of the score-updated input,
and hits with any given fused score appear in their input order (no
tie-break by raw semantic score or `chunkId` is applied). -/
theorem rerankStableSortByFusedScore (l : List HybridHit) (q : String) :
    (rerankHybridResults l q).Pairwise
      (fun a b => b.similarity_score ≤ a.similarity_score) ∧
    (rerankHybridResults l q).Perm (l.map scoreUpdate) ∧
    ∀ s : ℚ,
      (rerankHybridResults l q).filter (fun h => h.similarity_score = s) =
        (l.map scoreUpdate).filter (fun h => h.similarity_score = s) := by
  refine ⟨?_, ?_, ?_⟩
  · haveI : IsTotal HybridHit (fun a b => b.similarity_score ≤ a.similarity_score) :=
      ⟨fun a b => le_total _ _⟩
    haveI : IsTrans HybridHit (fun a b => b.similarity_score ≤ a.similarity_score) :=
      ⟨fun _ _ _ hab hbc => le_trans hbc hab⟩
    exact List.sorted_insertionSort _ _
  · exact List.perm_insertionSort _ _
  · exact fun s => filter_pySortDescBy (fun h => h.similarity_score) s _

/-- Claim C4 counterexample. Two semantic-only hits with equal scores and chunk
ids `"2"`, `"1"` (in that input order) are returned in input order `2, 1`,
not in the ascending-`chunkId` tie-break order the specification claims. -/
theorem rerankTieOrderCounterexample :
    ¬ specClaimedOrder
      (rerankHybridResults
        (mergeSearchResults [⟨"d1", "2", 1/2⟩, ⟨"d1", "1", 1/2⟩] []) "q") := by
  have he : rerankHybridResults
      (mergeSearchResults [⟨"d1", "2", 1/2⟩, ⟨"d1", "1", 1/2⟩] []) "q" =
      [⟨"d1", "2", 7/20, 1/2, 0, ["semantic"]⟩,
       ⟨"d1", "1", 7/20, 1/2, 0, ["semantic"]⟩] := by
    simp only [rerankHybridResults, mergeSearchResults, kwStep, dictGet, dictSet,
      semRecord, kwRecord, resultKey, scoreUpdate, pySortDescBy,
      List.insertionSort, List.orderedInsert, List.foldl, List.find?, List.map]
    norm_num
  intro hord
  unfold specClaimedOrder at hord
  rw [he, List.pairwise_cons] at hord
  have hrel := hord.1 _ (List.mem_cons_self _ _)
  rcases hrel with hlt | ⟨_, hsem | ⟨_, hle⟩⟩
  · exact absurd hlt (lt_irrefl _)
  · exact absurd hsem (lt_irrefl _)
  · have hf : pyStrLe "2" "1" = false := by decide
    rw [hf] at hle
    exact Bool.false_ne_true hle

/-- Claim C3 counterexample. With four available semantic candidates and a
requested result count of `4`, the semantic result list is cut to
`4 // 2 = 2` rows *before* fusion, and the hybrid output accordingly
contains only two hits. -/
theorem perMethodTruncationCounterexample :
    ([(⟨"d", "c1", 1/2⟩ : SearchRow), ⟨"d", "c2", 1/2⟩, ⟨"d", "c3", 1/2⟩,
      ⟨"d", "c4", 1/2⟩]).length = 4 ∧
    (semanticSearch [⟨"d", "c1", 1/2⟩, ⟨"d", "c2", 1/2⟩, ⟨"d", "c3", 1/2⟩,
      ⟨"d", "c4", 1/2⟩] (4 / 2)).length = 2 ∧
    (hybridSearch [⟨"d", "c1", 1/2⟩, ⟨"d", "c2", 1/2⟩, ⟨"d", "c3", 1/2⟩,
      ⟨"d", "c4", 1/2⟩] [] "q" 4).length = 2 := by
  refine ⟨rfl, rfl, ?_⟩
  simp only [hybridSearch, semanticSearch, keywordSearch, vectorSearch,
    lexicalSearch, mergeSearchResults, kwStep, dictGet, dictSet, semRecord,
    kwRecord, resultKey, rerankHybridResults, scoreUpdate, pySortDescBy,
    List.insertionSort, List.orderedInsert, List.foldl, List.find?, List.map,
    List.take]
  norm_num

/-- Claim C3, amended. Hybrid retrieval truncates each per-method result list
to `⌊N/2⌋` (the limit handed to the storage collaborator) *before* fusion;
the fused, reranked list is then truncated to the requested count `N`. -/
theorem hybridTruncationAfterPerMethodCut (semC kwC : List SearchRow)
    (q : String) (N : Nat) :
    (semanticSearch semC (N / 2)).length ≤ N / 2 ∧
    (keywordSearch kwC (N / 2)).length ≤ N / 2 ∧
    (hybridSearch semC kwC q N).length ≤ N ∧
    hybridSearch semC kwC q N =
      (rerankHybridResults
        (mergeSearchResults (semanticSearch semC (N / 2))
          (keywordSearch kwC (N / 2))) q).take N := by
  refine ⟨?_, ?_, ?_, rfl⟩
  · exact List.length_take_le _ _
  · exact List.length_take_le _ _
  · exact List.length_take_le _ _

end RagCore

namespace RagCore

/-! ## Duplicate-classification theorems -/

/-- Claim C1. Whenever the digest of the candidate's full byte content equals
the stored exact hash of some existing document, classification returns the
immediate decision `isDuplicate = true, confidence = 1.0,
matchType = exact_content, action = skip` — independently of the candidate's
filename and of whatever the filename, structural and semantic detection
methods would have produced (they are quantified over and absent from the
result, capturing the short-circuit). -/
theorem exactHashShortCircuit (sha256hex : List Nat → String)
    (docs : List ExistingDoc) (file_name : String) (file_content : List Nat)
    (fm cm sm : List MatchCand) (d : ExistingDoc)
    (hd : findByExactHash docs (sha256hex file_content) = some d) :
    checkForDuplicates sha256hex docs file_name file_content fm cm sm =
      { is_duplicate := true
        confidence := 1
        duplicate_type := some "exact_content"
        existing_document := some ⟨d.id, d.file_name, "exact_content", 1, none⟩
        recommendations :=
          ["Identical document already exists: " ++ d.file_name,
           "Recommend skipping upload to save storage and processing costs"]
        similar_documents := []
        action := "skip" } := by
  simp [checkForDuplicates, checkExactContentMatch, hd, dedupDefault]

/-- Claim C1 witness: a stored document with hash `hashA` and a candidate whose
digest is `hashA` but whose filename differs is skipped even though a
filename-method match for a different document is supplied. -/
theorem exactHashShortCircuitWitness :
    findByExactHash [⟨"doc-1", "report.pdf", "hashA"⟩]
      ((fun _ => "hashA") ([7, 7] : List Nat)) =
        some ⟨"doc-1", "report.pdf", "hashA"⟩ ∧
    checkForDuplicates (fun _ => "hashA") [⟨"doc-1", "report.pdf", "hashA"⟩]
      "totally-different-name.pdf" [7, 7]
      [⟨"doc-2", "x.pdf", "filename", 9/10, some "r"⟩] [] [] =
      { is_duplicate := true
        confidence := 1
        duplicate_type := some "exact_content"
        existing_document := some ⟨"doc-1", "report.pdf", "exact_content", 1, none⟩
        recommendations :=
          ["Identical document already exists: " ++ "report.pdf",
           "Recommend skipping upload to save storage and processing costs"]
        similar_documents := []
        action := "skip" } := by
  have hd : findByExactHash [⟨"doc-1", "report.pdf", "hashA"⟩]
      ((fun _ => "hashA") ([7, 7] : List Nat)) =
        some ⟨"doc-1", "report.pdf", "hashA"⟩ := by decide
  exact ⟨hd, exactHashShortCircuit (fun _ => "hashA") _ "totally-different-name.pdf"
    [7, 7] [⟨"doc-2", "x.pdf", "filename", 9/10, some "r"⟩] [] [] _ hd⟩

end RagCore

namespace RagCore

/-! ## Consolidation lemmas -/

theorem clookup_replaceAll (i k : String) (x : MatchCand)
    (m : List (String × MatchCand)) :
    clookup i (m.map (fun p => if p.1 = k then (k, x) else p)) =
      if k = i then (clookup i m).map (fun _ => x) else clookup i m := by
  induction m with
  | nil => by_cases h : k = i <;> simp [clookup, h]
  | cons p rest ih =>
    by_cases hpk : p.1 = k
    · by_cases hki : k = i
      · subst hki
        simp [clookup, List.find?, hpk]
      · have hpi : ¬ p.1 = i := by rw [hpk]; exact hki
        simp only [List.map_cons, if_pos hpk, clookup] at ih ⊢
        rw [List.find?_cons_of_neg _ (by simp [hki]),
          List.find?_cons_of_neg _ (by simp [hpi])]
        simp only [if_neg hki] at ih ⊢
        exact ih
    · by_cases hpi : p.1 = i
      · have hki : ¬ k = i := fun h => hpk (by rw [h, hpi])
        simp only [List.map_cons, if_neg hpk, clookup]
        rw [List.find?_cons_of_pos _ (by simp [hpi]),
          List.find?_cons_of_pos _ (by simp [hpi]), if_neg hki]
      · simp only [List.map_cons, if_neg hpk, clookup] at ih ⊢
        rw [List.find?_cons_of_neg _ (by simp [hpi]),
          List.find?_cons_of_neg _ (by simp [hpi])]
        exact ih

theorem clookup_consolidateStep (i : String) (x : MatchCand)
    (m : List (String × MatchCand)) :
    clookup i (consolidateStep m x) =
      if x.id = i ∧ ¬ x.id = "" then consolPick (clookup i m) x
      else clookup i m := by
  by_cases hid : x.id = ""
  · have hstep : consolidateStep m x = m := by
      unfold consolidateStep; rw [if_pos hid]
    simp [hstep, hid]
  · cases hf : (m.find? (fun p => p.1 = x.id)).map Prod.snd with
    | none =>
      have hstep : consolidateStep m x = m ++ [(x.id, x)] := by
        unfold consolidateStep; rw [if_neg hid, hf]
      have hfind : m.find? (fun p => p.1 = x.id) = none := by
        cases h' : m.find? (fun p => p.1 = x.id)
        · rfl
        · rw [h'] at hf; simp at hf
      rw [hstep]
      by_cases hix : x.id = i
      · have hfind0 := hfind
        rw [hix] at hfind
        simp [clookup, List.find?_append, hfind0, hfind, hf, ← hix, hid, consolPick]
      · simp only [clookup, List.find?_append]
        rw [List.find?_cons_of_neg _ (by simp [hix])]
        simp [hix]
    | some e =>
      have hcl : clookup x.id m = some e := hf
      by_cases hgt : x.similarity_score > e.similarity_score
      · have hstep : consolidateStep m x =
            m.map (fun p => if p.1 = x.id then (x.id, x) else p) := by
          unfold consolidateStep; rw [if_neg hid, hf]; simp [hgt]
        rw [hstep, clookup_replaceAll i x.id x m]
        by_cases hix : x.id = i
        · simp [← hix, hcl, hid, consolPick, hgt]
        · simp [hix]
      · have hstep : consolidateStep m x = m := by
          unfold consolidateStep; rw [if_neg hid, hf]; simp [hgt]
        rw [hstep]
        by_cases hix : x.id = i
        · simp [← hix, hcl, hid, consolPick, hgt]
        · simp [hix]

theorem clookup_foldl (i : String) (l : List MatchCand) :
    ∀ acc : List (String × MatchCand),
      clookup i (l.foldl consolidateStep acc) =
        (l.filter (fun x => x.id = i ∧ ¬ x.id = "")).foldl consolPick
          (clookup i acc) := by
  induction l with
  | nil => intro acc; rfl
  | cons x rest ih =>
    intro acc
    simp only [List.foldl_cons]
    rw [ih (consolidateStep acc x), clookup_consolidateStep]
    by_cases hc : x.id = i ∧ ¬ x.id = ""
    · rw [if_pos hc, List.filter_cons_of_pos (by simpa using hc), List.foldl_cons]
    · rw [if_neg hc, List.filter_cons_of_neg (by simpa using hc)]

theorem consolidateStep_idkeys (m : List (String × MatchCand)) (x : MatchCand)
    (h : ∀ p ∈ m, p.1 = p.2.id) : ∀ p ∈ consolidateStep m x, p.1 = p.2.id := by
  intro p hp
  unfold consolidateStep at hp
  split at hp
  · exact h p hp
  · split at hp
    · rcases List.mem_append.1 hp with h1 | h1
      · exact h p h1
      · simp [List.mem_singleton.1 h1]
    · split at hp
      · rcases List.mem_map.1 hp with ⟨q, hq, he⟩
        by_cases hqx : q.1 = x.id
        · rw [if_pos hqx] at he
          simp [← he]
        · rw [if_neg hqx] at he
          exact he ▸ h q hq
      · exact h p hp

theorem consolidateStep_keysNodup (m : List (String × MatchCand)) (x : MatchCand)
    (h : (m.map Prod.fst).Nodup) : ((consolidateStep m x).map Prod.fst).Nodup := by
  by_cases hid : x.id = ""
  · have hstep : consolidateStep m x = m := by
      unfold consolidateStep; rw [if_pos hid]
    rw [hstep]; exact h
  · cases hf : (m.find? (fun p => p.1 = x.id)).map Prod.snd with
    | none =>
      have hstep : consolidateStep m x = m ++ [(x.id, x)] := by
        unfold consolidateStep; rw [if_neg hid, hf]
      have hfind : m.find? (fun p => p.1 = x.id) = none := by
        cases h' : m.find? (fun p => p.1 = x.id)
        · rfl
        · rw [h'] at hf; simp at hf
      have hnotin : x.id ∉ m.map Prod.fst := by
        intro hmem
        rcases List.mem_map.1 hmem with ⟨q, hq, hqe⟩
        have := List.find?_eq_none.1 hfind q hq
        simp [hqe] at this
      rw [hstep]
      simp [List.nodup_append, h, hnotin]
    | some e =>
      by_cases hgt : x.similarity_score > e.similarity_score
      · have hstep : consolidateStep m x =
            m.map (fun p => if p.1 = x.id then (x.id, x) else p) := by
          unfold consolidateStep; rw [if_neg hid, hf]; simp [hgt]
        have hkeys : (m.map (fun p => if p.1 = x.id then (x.id, x) else p)).map Prod.fst
            = m.map Prod.fst := by
          rw [List.map_map]
          refine List.map_congr_left ?_
          intro p _
          by_cases hp : p.1 = x.id
          · simp [hp]
          · simp [hp]
        rw [hstep, hkeys]; exact h
      · have hstep : consolidateStep m x = m := by
          unfold consolidateStep; rw [if_neg hid, hf]; simp [hgt]
        rw [hstep]; exact h

theorem consolidateFold_idkeys (l : List MatchCand) :
    ∀ m, (∀ p ∈ m, p.1 = p.2.id) →
      ∀ p ∈ l.foldl consolidateStep m, p.1 = p.2.id := by
  induction l with
  | nil => intro m hm; simpa using hm
  | cons x rest ih =>
    intro m hm
    simp only [List.foldl_cons]
    exact ih _ (consolidateStep_idkeys m x hm)

theorem consolidateFold_keysNodup (l : List MatchCand) :
    ∀ m, (m.map Prod.fst).Nodup →
      ((l.foldl consolidateStep m).map Prod.fst).Nodup := by
  induction l with
  | nil => intro m hm; simpa using hm
  | cons x rest ih =>
    intro m hm
    simp only [List.foldl_cons]
    exact ih _ (consolidateStep_keysNodup m x hm)

theorem valuesFind_eq_clookup (m : List (String × MatchCand))
    (hinv : ∀ p ∈ m, p.1 = p.2.id) (i : String) :
    (m.map Prod.snd).find? (fun x => x.id = i) = clookup i m := by
  induction m with
  | nil => rfl
  | cons p rest ih =>
    have hp := hinv p (List.mem_cons_self _ _)
    by_cases hpi : p.2.id = i
    · simp only [List.map_cons, clookup]
      rw [List.find?_cons_of_pos _ (by simp [hpi]),
        List.find?_cons_of_pos _ (by simp [hp, hpi])]
      simp
    · simp only [List.map_cons, clookup] at ih ⊢
      rw [List.find?_cons_of_neg _ (by simp [hpi]),
        List.find?_cons_of_neg _ (by simp [hp, hpi])]
      exact ih fun q hq => hinv q (List.mem_cons_of_mem _ hq)

/-- Claim C5, amended. Consolidation yields at most one record per
existing-document id (the emitted ids are pairwise distinct), and the record
stored for an id is exactly the *first* match attaining the maximal
similarity score among the concatenated filename, content-hash and semantic
match lists, in that iteration order — matchType plays no role, so on equal
scores the earlier method (filename before content-hash before semantic)
wins, not the spec's `exact_content > structural > semantic > filename`
ranking. -/
theorem consolidateKeepsFirstMax (fm cm sm : List MatchCand) (i : String) :
    ((consolidateMatches fm cm sm).map (fun x => x.id)).Nodup ∧
    (consolidateMatches fm cm sm).find? (fun x => x.id = i) =
      firstMaxByScore
        ((fm ++ cm ++ sm).filter (fun x => x.id = i ∧ ¬ x.id = "")) := by
  have hinv : ∀ p ∈ (fm ++ cm ++ sm).foldl consolidateStep [], p.1 = p.2.id :=
    consolidateFold_idkeys _ [] (by simp)
  constructor
  · have hkeys := consolidateFold_keysNodup (fm ++ cm ++ sm) [] (by simp)
    unfold consolidateMatches
    rw [List.map_map]
    have heq : ((fm ++ cm ++ sm).foldl consolidateStep []).map
          ((fun x => x.id) ∘ Prod.snd) =
        ((fm ++ cm ++ sm).foldl consolidateStep []).map Prod.fst := by
      refine List.map_congr_left ?_
      intro p hp
      simpa using (hinv p hp).symm
    rw [heq]
    exact hkeys
  · unfold consolidateMatches firstMaxByScore
    rw [valuesFind_eq_clookup _ hinv i, clookup_foldl i (fm ++ cm ++ sm) []]
    rfl

/-- Claim C5 counterexample. A filename-method match and a semantic-method
match for the same document with *equal* scores: consolidation keeps the
filename-method record (the first inserted), although the specification's
tie-break ranking `exact_content > structural > semantic > filename` would
prefer the semantic one. -/
theorem consolidateTieCounterexample :
    consolidateMatches
        [⟨"doc1", "a.pdf", "filename", 9/10, some "similar filename"⟩] []
        [⟨"doc1", "a.pdf", "semantic", 9/10, some "similar content"⟩] =
      [⟨"doc1", "a.pdf", "filename", 9/10, some "similar filename"⟩] := by
  have h1 : ¬ ((9 : ℚ)/10 > (9 : ℚ)/10) := by norm_num
  simp [consolidateMatches, consolidateStep, List.find?, h1]

end RagCore

namespace RagCore

/-! ## Merge-operation lemmas -/

theorem metaLookup_replaceAll (m : List (String × MetaVal)) (k : String)
    (v : MetaVal) (i : String) :
    metaLookup (m.map (fun p => if p.1 = k then (k, v) else p)) i =
      if k = i then (metaLookup m i).map (fun _ => v) else metaLookup m i := by
  induction m with
  | nil => by_cases h : k = i <;> simp [metaLookup, h]
  | cons p rest ih =>
    by_cases hpk : p.1 = k
    · by_cases hki : k = i
      · subst hki
        simp [metaLookup, List.find?, hpk]
      · have hpi : ¬ p.1 = i := by rw [hpk]; exact hki
        simp only [List.map_cons, if_pos hpk, metaLookup] at ih ⊢
        rw [List.find?_cons_of_neg _ (by simp [hki]),
          List.find?_cons_of_neg _ (by simp [hpi])]
        simp only [if_neg hki] at ih ⊢
        exact ih
    · by_cases hpi : p.1 = i
      · have hki : ¬ k = i := fun h => hpk (by rw [h, hpi])
        simp only [List.map_cons, if_neg hpk, metaLookup]
        rw [List.find?_cons_of_pos _ (by simp [hpi]),
          List.find?_cons_of_pos _ (by simp [hpi]), if_neg hki]
      · simp only [List.map_cons, if_neg hpk, metaLookup] at ih ⊢
        rw [List.find?_cons_of_neg _ (by simp [hpi]),
          List.find?_cons_of_neg _ (by simp [hpi])]
        exact ih

theorem metaLookup_metaSet_self (m : List (String × MetaVal)) (k : String)
    (v : MetaVal) : metaLookup (metaSet m k v) k = some v := by
  unfold metaSet
  by_cases h : (m.find? (fun p => p.1 = k)).isSome
  · rw [if_pos h, metaLookup_replaceAll, if_pos rfl]
    rcases Option.isSome_iff_exists.1 h with ⟨q, hq⟩
    simp [metaLookup, hq]
  · rw [if_neg h]
    have hnone : m.find? (fun p => p.1 = k) = none :=
      Option.not_isSome_iff_eq_none.1 h
    simp [metaLookup, List.find?_append, hnone, List.find?]

theorem metaLookup_metaSet_other (m : List (String × MetaVal)) (k : String)
    (v : MetaVal) (i : String) (h : ¬ k = i) :
    metaLookup (metaSet m k v) i = metaLookup m i := by
  unfold metaSet
  by_cases hf : (m.find? (fun p => p.1 = k)).isSome
  · rw [if_pos hf, metaLookup_replaceAll, if_neg h]
  · rw [if_neg hf]
    simp only [metaLookup, List.find?_append]
    rw [List.find?_cons_of_neg _ (by simp [h])]
    simp

theorem mergeStep_eq_map (now p i : String) (acc : List StoredDoc) :
    updateDocumentMetadata (updateDocumentStatus acc i "merged") i
        [("merged_into", .s p), ("merge_date", .s now)] =
      acc.map (gMark now p i) := by
  unfold updateDocumentMetadata updateDocumentStatus gMark
  rw [List.map_map]
  refine List.map_congr_left ?_
  intro d _
  by_cases hd : d.id = i
  · simp [hd]
  · simp [hd]

theorem gMark_id (now p i : String) (d : StoredDoc) :
    (gMark now p i d).id = d.id := by
  unfold gMark; split <;> rfl

theorem gMark_establish (now p i : String) (d : StoredDoc) (h : d.id = i) :
    (gMark now p i d).processing_status = "merged" ∧
      metaLookup (gMark now p i d).metadata "merged_into" = some (.s p) := by
  unfold gMark
  rw [if_pos h]
  refine ⟨rfl, ?_⟩
  show metaLookup
      (metaMerge d.metadata [("merged_into", .s p), ("merge_date", .s now)])
      "merged_into" = some (.s p)
  unfold metaMerge
  simp only [List.foldl_cons, List.foldl_nil]
  rw [metaLookup_metaSet_other _ _ _ _ (by decide), metaLookup_metaSet_self]

theorem mergeFold_pres (now p i : String) (rest : List String) :
    ∀ st : List StoredDoc,
      (∀ e ∈ st, e.id = i →
        e.processing_status = "merged" ∧
          metaLookup e.metadata "merged_into" = some (.s p)) →
      ∀ d ∈ rest.foldl
        (fun acc j => updateDocumentMetadata (updateDocumentStatus acc j "merged") j
          [("merged_into", .s p), ("merge_date", .s now)]) st,
        d.id = i →
          d.processing_status = "merged" ∧
            metaLookup d.metadata "merged_into" = some (.s p) := by
  induction rest with
  | nil => intro st hst; simpa using hst
  | cons j rest' ih =>
    intro st hst
    simp only [List.foldl_cons]
    rw [mergeStep_eq_map]
    refine ih (st.map (gMark now p j)) ?_
    intro e' he' hei
    rcases List.mem_map.1 he' with ⟨e, he, hee⟩
    by_cases hej : e.id = j
    · exact hee ▸ gMark_establish now p j e hej
    · have : gMark now p j e = e := by unfold gMark; rw [if_neg hej]
      rw [← hee, this] at hei ⊢
      exact hst e he hei

theorem mergeFold_marks (now p : String) (ss : List String) :
    ∀ (st : List StoredDoc) (d : StoredDoc),
      d ∈ ss.foldl
        (fun acc j => updateDocumentMetadata (updateDocumentStatus acc j "merged") j
          [("merged_into", .s p), ("merge_date", .s now)]) st →
      d.id ∈ ss →
        d.processing_status = "merged" ∧
          metaLookup d.metadata "merged_into" = some (.s p) := by
  induction ss with
  | nil => intro st d _ hid; simp at hid
  | cons i rest ih =>
    intro st d hd hid
    rcases List.mem_cons.1 hid with hdi | hdi
    · simp only [List.foldl_cons] at hd
      rw [mergeStep_eq_map] at hd
      refine mergeFold_pres now p i rest (st.map (gMark now p i)) ?_ d hd hdi
      intro e' he' hei
      rcases List.mem_map.1 he' with ⟨e, he, hee⟩
      by_cases hej : e.id = i
      · exact hee ▸ gMark_establish now p i e hej
      · exfalso
        apply hej
        rw [← hee] at hei
        rw [← gMark_id now p i e]
        exact hei
    · simp only [List.foldl_cons] at hd
      exact ih _ d hd hdi

end RagCore

namespace RagCore

/-- Claim C8 counterexample. Merging into a primary id that resolves to no
stored document (the store is empty, so the lone secondary id is unresolvable
too) still reports `success = True` with the full secondary list echoed back
— the operation does not fail on unresolvable ids as the specification
claims. -/
theorem mergeNoValidationCounterexample :
    getDocumentById ([] : List StoredDoc) "p" = none ∧
    getDocumentById ([] : List StoredDoc) "s" = none ∧
    (mergeSimilarDocuments "2026-01-01T00:00:00" [] "p" ["s"]).1.success = true ∧
    (mergeSimilarDocuments "2026-01-01T00:00:00" [] "p" ["s"]).1.merged_documents
      = ["s"] :=
  ⟨rfl, rfl, rfl, rfl⟩

/-- Claim C8, amended. `merge(primaryId, secondaryIds)` never fails: it
reports success for every input, without validating any id; every stored
document whose id occurs among the secondary ids is transitioned to
`status = merged` with `merged_into = primaryId`, while unresolvable ids are
silently skipped by the storage updates. -/
theorem mergeAlwaysSucceedsAndMarks (now : String) (db : List StoredDoc)
    (p : String) (ss : List String) :
    (mergeSimilarDocuments now db p ss).1.success = true ∧
    ((mergeSimilarDocuments now db p ss).2.all fun d =>
      !(ss.contains d.id) ||
        (d.processing_status == "merged" &&
          metaLookup d.metadata "merged_into" == some (.s p))) = true := by
  refine ⟨rfl, ?_⟩
  rw [List.all_eq_true]
  intro d hd
  by_cases hid : d.id ∈ ss
  · have hP := mergeFold_marks now p ss _ d hd hid
    simp [hP.1, hP.2]
  · have : ss.contains d.id = false := by
      rw [← Bool.not_eq_true]
      simpa using hid
    simp only [this, Bool.not_false, Bool.true_or]

end RagCore

namespace RagCore

/-! ## Facet, fingerprint and segmenter theorems -/

/-- Claim C9, code bug. Facet generation is *not* total: the empty result list
short-circuits to an empty facet mapping, but every non-empty result list
reaches the `self._analyze_content_categories(results)` call, a method that
exists nowhere on the service class, so the call raises `AttributeError`
instead of returning a facet mapping. -/
theorem facetsRaiseOnNonEmptyBug :
    generateFacets [] = .ok [] ∧
    generateFacets [⟨"a.pdf", 9/10, 1⟩] =
      .error "AttributeError: 'AdvancedSearchService' object has no attribute '_analyze_content_categories'" :=
  ⟨rfl, rfl⟩

theorem splitUnderscore_append (a l : List Char) (ha : ∀ c ∈ a, c ≠ '_') :
    splitUnderscore (a ++ '_' :: l) = a :: splitUnderscore l := by
  induction a with
  | nil => simp [splitUnderscore]
  | cons c a' ih =>
    have hc : ¬ c = '_' := ha c (List.mem_cons_self _ _)
    have ha' : ∀ c' ∈ a', c' ≠ '_' := fun c' hm => ha c' (List.mem_cons_of_mem _ hm)
    simp only [List.cons_append, splitUnderscore, if_neg hc, List.append_eq]
    rw [ih ha']

/-- Claim C10, code bug. Creating the structural fingerprint of zero-byte
content succeeds (it is a total function of the digest), but *comparing* two
such fingerprints divides by `max(size1, size2) = max(0, 0) = 0` and raises
`ZeroDivisionError` instead of returning a neutral score — for every digest
function whose output contains no underscore (as the hex digests of
`hashlib.md5` never do). -/
theorem emptyFingerprintCompareRaises (h : String)
    (hh : (h.data.all fun c => c ≠ '_') = true) :
    compareContentFingerprints (createContentFingerprint (fun _ => h) [])
      (createContentFingerprint (fun _ => h) []) =
      .error "ZeroDivisionError: division by zero" := by
  have ha : ∀ c ∈ h.data, c ≠ '_' := by
    intro c hc
    have := List.all_eq_true.1 hh c hc
    simpa using this
  have hdata : (createContentFingerprint (fun _ => h) []).data =
      h.data ++ '_' :: (h.data ++ '_' :: ['0']) := by
    show (h ++ "_" ++ h ++ "_" ++ toString (0 : Nat)).data = _
    have h0 : (toString (0 : Nat)).data = ['0'] := rfl
    simp [String.data_append, h0]
  have hsplit : splitUnderscore (createContentFingerprint (fun _ => h) []).data =
      [h.data, h.data, ['0']] := by
    rw [hdata, splitUnderscore_append _ _ ha, splitUnderscore_append _ _ ha]
    rfl
  unfold compareContentFingerprints
  rw [hsplit]
  simp [pyInt]

/-- Claim C10 witness: with the (underscore-free) digest constantly
`"d41d8cd9"`, comparing the fingerprint of zero-byte content with itself
raises the division-by-zero error. -/
theorem emptyFingerprintCompareRaisesWitness :
    (("d41d8cd9" : String).data.all fun c => c ≠ '_') = true ∧
    compareContentFingerprints
        (createContentFingerprint (fun _ => "d41d8cd9") [])
        (createContentFingerprint (fun _ => "d41d8cd9") []) =
      .error "ZeroDivisionError: division by zero" :=
  ⟨by decide, emptyFingerprintCompareRaises "d41d8cd9" (by decide)⟩

/-- Claim C6, code bug. On the text `"aaaa. bbbb. c."` with
`chunkSizeChars = 10` and `overlapChars = 2`, every sentence is at most 10
characters long, yet segmentation emits chunks of 11 and 14 characters: the
size guard ignores the joining space, and a computed overlap count of 0
carries the entire previous chunk through the Python slice `[-0:]`. -/
theorem chunkSizeExceededBug :
    ((splitIntoSentences "aaaa. bbbb. c.".data).map (fun s => s.length)).all
        (fun n => n ≤ 10) = true ∧
    (chunkText (fun _ => "") ⟨10, 2⟩ "aaaa. bbbb. c.".data (some 1)).map
        (fun c => c.char_count) = [11, 14] :=
  ⟨by decide, by decide⟩

/-- Claim C7, code bug. Same input as C6: the first emitted chunk holds 2
sentences, the overlap-sentence count computes to 0 (its last sentence is
longer than `overlapChars`), and the slice `sentences[-0:]` then carries
*all* 2 sentences — 100 % of the earlier chunk, exceeding the 50 % cap the
code's own `# Max 50% overlap` comment promises — so the second chunk starts
with the entire first chunk. -/
theorem overlapCarryAllBug :
    (chunkText (fun _ => "") ⟨10, 2⟩ "aaaa. bbbb. c.".data (some 1)).map
        (fun c => c.sentence_count) = [2, 3] ∧
    calculateOverlapSentences ⟨10, 2⟩ ["aaaa.".data, "bbbb.".data] = 0 ∧
    pySliceLast (calculateOverlapSentences ⟨10, 2⟩ ["aaaa.".data, "bbbb.".data])
        ["aaaa.".data, "bbbb.".data] = ["aaaa.".data, "bbbb.".data] ∧
    (chunkText (fun _ => "") ⟨10, 2⟩ "aaaa. bbbb. c.".data (some 1)).map
        (fun c => c.content) =
      ["aaaa. bbbb.".data, "aaaa. bbbb. c.".data] :=
  ⟨by decide, by decide, by decide, by decide⟩

end RagCore
